import Mathlib

/-!
Verification of the nftopia-stellar repository: the Soroban marketplace
settlement contract (modelled from its specification, since only the
contract README survives in the tree) and the NestJS NFT indexing backend
(translated from the TypeScript sources).
-/

deriving instance DecidableEq for Except

namespace NFTopia

/-- Security error kinds of the settlement engine. -/
inductive SecurityError where
  | reentrant
  | invalidReveal
deriving DecidableEq, Repr

/-- Arithmetic error kinds of the settlement engine. -/
inductive MathError where
  | overflow
  | underflow
deriving DecidableEq, Repr

/-- Error taxonomy of the settlement engine. -/
inductive SettleError where
  | security (e : SecurityError)
  | math (e : MathError)
  | stateErr
  | paymentErr
  | authErr
  | notFound
deriving DecidableEq, Repr

/-- Royalty distribution policy, in basis points. -/
structure RoyaltyDistribution where
  creatorShareBps : Nat
  sellerShareBps : Nat
  platformShareBps : Nat
deriving DecidableEq, Repr

/-- The three shares a payment is split into. -/
structure Shares where
  creatorAmount : Nat
  sellerAmount : Nat
  platformAmount : Nat
deriving DecidableEq, Repr

/-- Modelled from the spec: royalty_distributor.rs is absent from the
source tree (only the contract README is present).  Following section 4.3:
platform-amount is floor(payment times fee-bps over 10000); remaining is
payment minus platform-amount; creator-amount is floor(remaining times
creator-share-bps over 10000); seller-amount is the rest of remaining.
Subtractions are checked (section 2 math utilities: no silent wraparound),
so a fee or share over 10000 basis points that would drive a share past
the payment is rejected with a MathError. -/
def distribute (payment : Nat) (d : RoyaltyDistribution) (feeBps : Nat) :
    Except MathError Shares :=
  let platform := payment * feeBps / 10000
  if platform ≤ payment then
    let remaining := payment - platform
    let creator := remaining * d.creatorShareBps / 10000
    if creator ≤ remaining then
      Except.ok ⟨creator, remaining - creator, platform⟩
    else Except.error MathError.underflow
  else Except.error MathError.underflow

/-- Modelled from the spec: auction_engine.rs is absent from the source
tree.  Section 4.5, Dutch auctions: the quoted price is a pure function of
elapsed time since the auction start, decaying linearly and floored at the
reserve price. -/
def dutchCurrentPrice (startPrice decayRate reserve elapsed : Nat) : Nat :=
  max reserve (startPrice - decayRate * elapsed)

/-- C1: every accepted distribute call returns platform-amount equal to
floor(payment times fee-bps over 10000), creator-amount equal to
floor((payment minus platform-amount) times creator-share-bps over 10000),
seller-amount the remainder, and the three shares sum exactly to the
payment. -/
theorem distribute_exact (payment feeBps : Nat) (d : RoyaltyDistribution)
    (s : Shares) (h : distribute payment d feeBps = Except.ok s) :
    s.platformAmount = payment * feeBps / 10000 ∧
    s.creatorAmount = (payment - s.platformAmount) * d.creatorShareBps / 10000 ∧
    s.sellerAmount = (payment - s.platformAmount) - s.creatorAmount ∧
    s.creatorAmount + s.sellerAmount + s.platformAmount = payment := by
  unfold distribute at h
  by_cases hp : payment * feeBps / 10000 ≤ payment
  · simp only [hp, if_true] at h
    by_cases hc : (payment - payment * feeBps / 10000) * d.creatorShareBps / 10000 ≤
        payment - payment * feeBps / 10000
    · simp only [hc, if_true] at h
      cases h
      refine ⟨rfl, rfl, rfl, ?_⟩
      simp only
      omega
    · simp only [hc, if_false] at h
      exact absurd h (by simp)
  · simp only [hp, if_false] at h
    exact absurd h (by simp)

/-- Witness for C1: distributing a payment of 1000 with a 500 bps creator
share and a 500 bps platform fee yields shares 47, 903, 50. -/
theorem distribute_exact_witness :
    (Shares.mk 47 903 50).platformAmount = 1000 * 500 / 10000 ∧
    (Shares.mk 47 903 50).creatorAmount =
      (1000 - (Shares.mk 47 903 50).platformAmount) * 500 / 10000 ∧
    (Shares.mk 47 903 50).sellerAmount =
      (1000 - (Shares.mk 47 903 50).platformAmount) - (Shares.mk 47 903 50).creatorAmount ∧
    (Shares.mk 47 903 50).creatorAmount + (Shares.mk 47 903 50).sellerAmount +
      (Shares.mk 47 903 50).platformAmount = 1000 :=
  distribute_exact 1000 500 ⟨500, 9000, 500⟩ ⟨47, 903, 50⟩ (by decide)

/-- C6: the Dutch auction quoted price is monotonically non-increasing in
elapsed time and never falls below the reserve price. -/
theorem dutchPrice_monotone_floor (startPrice decayRate reserve t1 t2 : Nat)
    (h : t1 ≤ t2) :
    dutchCurrentPrice startPrice decayRate reserve t2 ≤
      dutchCurrentPrice startPrice decayRate reserve t1 ∧
    reserve ≤ dutchCurrentPrice startPrice decayRate reserve t2 := by
  constructor
  · have hm : decayRate * t1 ≤ decayRate * t2 := Nat.mul_le_mul_left decayRate h
    unfold dutchCurrentPrice
    have hsub : startPrice - decayRate * t2 ≤ startPrice - decayRate * t1 := by omega
    exact max_le_max le_rfl hsub
  · exact le_max_left _ _

/-- Witness for C6: with start price 100, decay rate 1 and reserve 10, the
price at time 5 is at most the price at time 3 and at least the reserve. -/
theorem dutchPrice_monotone_floor_witness :
    dutchCurrentPrice 100 1 10 5 ≤ dutchCurrentPrice 100 1 10 3 ∧
    10 ≤ dutchCurrentPrice 100 1 10 5 :=
  dutchPrice_monotone_floor 100 1 10 3 5 (by decide)

/-- Fee configuration: a base fee and tiered overrides, each tier a pair
of a volume threshold and the fee in basis points from that threshold on. -/
structure FeeConfig where
  baseFeeBps : Nat
  tiers : List (Nat × Nat)
deriving DecidableEq, Repr

/-- Modelled from the spec: fee_manager.rs is absent from the source tree.
Linear scan keeping the best tier seen so far: a tier is eligible when its
threshold is at most the volume, and a later tier replaces the current
best only when its threshold is strictly higher. -/
def selectTier (volume : Nat) : List (Nat × Nat) → Option (Nat × Nat) → Option (Nat × Nat)
  | [], best => best
  | t :: ts, best =>
    if t.1 ≤ volume then
      match best with
      | none => selectTier volume ts (some t)
      | some b => selectTier volume ts (some (if b.1 < t.1 then t else b))
    else selectTier volume ts best

/-- Modelled from the spec: fee_manager.rs is absent from the source tree.
Section 4.3: compute_fee selects the highest tier threshold at most the
cumulative volume and falls back to the base fee when no tier qualifies. -/
def compute_fee (volume : Nat) (cfg : FeeConfig) : Nat :=
  match selectTier volume cfg.tiers none with
  | some t => t.2
  | none => cfg.baseFeeBps

theorem selectTier_skip (volume : Nat) (ts : List (Nat × Nat))
    (best : Option (Nat × Nat)) (h : ∀ t ∈ ts, volume < t.1) :
    selectTier volume ts best = best := by
  induction ts with
  | nil => rfl
  | cons t ts ih =>
    have ht : volume < t.1 := h t (List.mem_cons_self t ts)
    have : ¬ t.1 ≤ volume := by omega
    simp only [selectTier, this, if_false]
    exact ih fun u hu => h u (List.mem_cons_of_mem t hu)

theorem selectTier_some (volume : Nat) (ts : List (Nat × Nat))
    (b : Nat × Nat) : ∃ c, selectTier volume ts (some b) = some c := by
  induction ts generalizing b with
  | nil => exact ⟨b, rfl⟩
  | cons t ts ih =>
    by_cases ht : t.1 ≤ volume
    · simp only [selectTier, ht, if_true]
      exact ih (if b.1 < t.1 then t else b)
    · simp only [selectTier, ht, if_false]
      exact ih b

theorem selectTier_hit (volume : Nat) (ts : List (Nat × Nat)) (t0 : Nat × Nat)
    (hmem : t0 ∈ ts) (hle : t0.1 ≤ volume) :
    ∀ best, ∃ c, selectTier volume ts best = some c := by
  induction ts with
  | nil => exact absurd hmem (List.not_mem_nil t0)
  | cons u us ih =>
    intro best
    by_cases hu : u.1 ≤ volume
    · cases best with
      | none =>
        simp only [selectTier, hu, if_true]
        exact selectTier_some volume us u
      | some b =>
        simp only [selectTier, hu, if_true]
        exact selectTier_some volume us _
    · simp only [selectTier, hu, if_false]
      rcases List.mem_cons.mp hmem with rfl | h2
      · exact absurd hle hu
      · exact ih h2 best

theorem selectTier_sound (volume : Nat) (ts : List (Nat × Nat))
    (best : Option (Nat × Nat)) (t : Nat × Nat)
    (hr : selectTier volume ts best = some t)
    (hb : ∀ b, best = some b → b.1 ≤ volume) :
    ((t ∈ ts ∧ t.1 ≤ volume) ∨ best = some t) ∧
    (∀ u ∈ ts, u.1 ≤ volume → u.1 ≤ t.1) ∧
    (∀ b, best = some b → b.1 ≤ t.1) := by
  induction ts generalizing best with
  | nil =>
    refine ⟨Or.inr hr, fun u hu => absurd hu (List.not_mem_nil u), ?_⟩
    intro b hbeq
    have hbt : b = t := by
      apply Option.some.inj
      rw [← hbeq]
      exact hr
    rw [hbt]
  | cons t0 ts ih =>
    by_cases ht0 : t0.1 ≤ volume
    · cases best with
      | none =>
        simp only [selectTier, ht0, if_true] at hr
        have hinv : ∀ b, some t0 = some b → b.1 ≤ volume := by
          intro b hbe
          rw [← Option.some.inj hbe]
          exact ht0
        obtain ⟨hmem, hmax, hbest⟩ := ih (some t0) hr hinv
        refine ⟨?_, ?_, ?_⟩
        · rcases hmem with ⟨hts, hle⟩ | heq
          · exact Or.inl ⟨List.mem_cons_of_mem t0 hts, hle⟩
          · have he : t0 = t := Option.some.inj heq
            rw [← he]
            exact Or.inl ⟨List.mem_cons_self t0 ts, ht0⟩
        · intro u hu hule
          rcases List.mem_cons.mp hu with heq2 | hu2
          · rw [heq2]
            exact hbest t0 rfl
          · exact hmax u hu2 hule
        · intro b hbe
          exact absurd hbe (by simp)
      | some b =>
        simp only [selectTier, ht0, if_true] at hr
        have hbv : b.1 ≤ volume := hb b rfl
        by_cases hlt : b.1 < t0.1
        · rw [if_pos hlt] at hr
          have hinv : ∀ c, some t0 = some c → c.1 ≤ volume := by
            intro c hce
            rw [← Option.some.inj hce]
            exact ht0
          obtain ⟨hmem, hmax, hbest⟩ := ih (some t0) hr hinv
          have ht0t : t0.1 ≤ t.1 := hbest t0 rfl
          refine ⟨?_, ?_, ?_⟩
          · rcases hmem with ⟨hts, hle⟩ | heq
            · exact Or.inl ⟨List.mem_cons_of_mem t0 hts, hle⟩
            · have he : t0 = t := Option.some.inj heq
              rw [← he]
              exact Or.inl ⟨List.mem_cons_self t0 ts, ht0⟩
          · intro u hu hule
            rcases List.mem_cons.mp hu with heq2 | hu2
            · rw [heq2]
              exact ht0t
            · exact hmax u hu2 hule
          · intro c hce
            have he : b = c := Option.some.inj hce
            rw [← he]
            omega
        · rw [if_neg hlt] at hr
          obtain ⟨hmem, hmax, hbest⟩ := ih (some b) hr hb
          have hbt : b.1 ≤ t.1 := hbest b rfl
          refine ⟨?_, ?_, ?_⟩
          · rcases hmem with ⟨hts, hle⟩ | heq
            · exact Or.inl ⟨List.mem_cons_of_mem t0 hts, hle⟩
            · exact Or.inr heq
          · intro u hu hule
            rcases List.mem_cons.mp hu with heq2 | hu2
            · rw [heq2]
              omega
            · exact hmax u hu2 hule
          · intro c hce
            have he : b = c := Option.some.inj hce
            rw [← he]
            exact hbt
    · simp only [selectTier, ht0, if_false] at hr
      obtain ⟨hmem, hmax, hbest⟩ := ih best hr hb
      refine ⟨?_, ?_, hbest⟩
      · rcases hmem with ⟨hts, hle⟩ | heq
        · exact Or.inl ⟨List.mem_cons_of_mem t0 hts, hle⟩
        · exact Or.inr heq
      · intro u hu hule
        rcases List.mem_cons.mp hu with heq2 | hu2
        · rw [heq2] at hule
          exact absurd hule ht0
        · exact hmax u hu2 hule

/-- C3: compute_fee returns the fee of the highest tier threshold at most
the volume, and the base fee when no tier threshold is at most the volume;
as a Lean function of the config snapshot and the volume it is
deterministic and pure by construction. -/
theorem compute_fee_spec (volume : Nat) (cfg : FeeConfig) :
    ((∀ t ∈ cfg.tiers, volume < t.1) → compute_fee volume cfg = cfg.baseFeeBps) ∧
    ((∃ t ∈ cfg.tiers, t.1 ≤ volume) →
      ∃ t ∈ cfg.tiers, t.1 ≤ volume ∧
        (∀ u ∈ cfg.tiers, u.1 ≤ volume → u.1 ≤ t.1) ∧
        compute_fee volume cfg = t.2) := by
  constructor
  · intro h
    unfold compute_fee
    rw [selectTier_skip volume cfg.tiers none h]
  · intro h
    obtain ⟨t0, ht0mem, ht0le⟩ := h
    obtain ⟨c, hc⟩ := selectTier_hit volume cfg.tiers t0 ht0mem ht0le none
    obtain ⟨hmem, hmax, _⟩ := selectTier_sound volume cfg.tiers none c hc (by intro b hb; cases hb)
    rcases hmem with ⟨hcts, hcle⟩ | heq
    · refine ⟨c, hcts, hcle, hmax, ?_⟩
      unfold compute_fee
      rw [hc]
    · cases heq

/-- Witness for C3: with base fee 30 and tiers at thresholds 50 and 200,
a volume of 100 selects the tier at threshold 50. -/
theorem compute_fee_spec_witness :
    ∃ t ∈ (FeeConfig.mk 30 [(50, 25), (200, 20)]).tiers, t.1 ≤ 100 ∧
      (∀ u ∈ (FeeConfig.mk 30 [(50, 25), (200, 20)]).tiers, u.1 ≤ 100 → u.1 ≤ t.1) ∧
      compute_fee 100 (FeeConfig.mk 30 [(50, 25), (200, 20)]) = t.2 :=
  (compute_fee_spec 100 (FeeConfig.mk 30 [(50, 25), (200, 20)])).2
    ⟨(50, 25), by decide, by decide⟩

/-- Record of the stellar_nfts table, from stellar-nft.entity.ts.  The
metadata relation and audit timestamps are omitted; mintedAt, volume and
price are modelled as naturals since only their ordering matters here.
Note the orderBy on nft.price in NftService.findAll refers to a price
column that stellar-nft.entity.ts does not declare; it is modelled as a
field so that branch is representable. -/
structure StellarNft where
  contractId : String
  tokenId : String
  owner : String
  metadataUri : Option String
  views : Nat
  salesCount : Nat
  volume : Nat
  mintedAt : Nat
  price : Nat
deriving DecidableEq, Repr

/-- Sort direction of NftFilterDto. -/
inductive SortOrder where
  | asc
  | desc
deriving DecidableEq, Repr

/-- Sort key of NftFilterDto. -/
inductive SortKey where
  | mintedAt
  | price
  | views
deriving DecidableEq, Repr

/-- Filter query of NftService.findAll, from dto/nft-filter.dto.ts.  Every
field is optional on the wire; the service re-defaults page and limit with
a JavaScript or-expression. -/
structure NftFilterDto where
  contractId : Option String
  owner : Option String
  page : Option Nat
  limit : Option Nat
  sortOrder : Option SortOrder
  sortBy : Option SortKey
deriving DecidableEq, Repr

/-- JavaScript or-defaulting as used in findAll: undefined and 0 are both
falsy, so either yields the default. -/
def jsOr (v : Option Nat) (d : Nat) : Nat :=
  match v with
  | none => d
  | some n => if n = 0 then d else n

/-- The andWhere filters of NftService.findAll: each of contractId and
owner constrains the result only when present in the query. -/
def matchesFilter (q : NftFilterDto) (n : StellarNft) : Bool :=
  (match q.contractId with
   | none => true
   | some c => n.contractId == c) &&
  (match q.owner with
   | none => true
   | some o => n.owner == o)

/-- The orderBy key of NftService.findAll: price and views when requested,
otherwise mintedAt (also when sortBy is absent). -/
def sortVal (q : NftFilterDto) (n : StellarNft) : Nat :=
  if q.sortBy = some SortKey.price then n.price
  else if q.sortBy = some SortKey.views then n.views
  else n.mintedAt

/-- Comparison realising orderBy: ascending exactly when sortOrder is asc,
otherwise descending (also when sortOrder is absent). -/
def nftLe (q : NftFilterDto) (a b : StellarNft) : Bool :=
  if q.sortOrder = some SortOrder.asc then decide (sortVal q a ≤ sortVal q b)
  else decide (sortVal q b ≤ sortVal q a)

/-- Insertion into a sorted list, realising the ORDER BY of the query
builder. -/
def insertSorted (le : StellarNft → StellarNft → Bool) (x : StellarNft) :
    List StellarNft → List StellarNft
  | [] => [x]
  | y :: ys => if le x y then x :: y :: ys else y :: insertSorted le x ys

/-- Insertion sort, realising the ORDER BY of the query builder. -/
def sortList (le : StellarNft → StellarNft → Bool) : List StellarNft → List StellarNft
  | [] => []
  | x :: xs => insertSorted le x (sortList le xs)

/-- The filtered and ordered result set of findAll before pagination. -/
def sortedResult (db : List StellarNft) (q : NftFilterDto) : List StellarNft :=
  sortList (nftLe q) (db.filter (matchesFilter q))

/-- Page number used by findAll: query.page or 1. -/
def pageOf (q : NftFilterDto) : Nat := jsOr q.page 1

/-- Page size used by findAll: query.limit or 10. -/
def limitOf (q : NftFilterDto) : Nat := jsOr q.limit 10

/-- NftService.findAll from the nft service source: filter, order, then
skip (page - 1) * limit records and take limit records. -/
def findAll (db : List StellarNft) (q : NftFilterDto) : List StellarNft :=
  ((sortedResult db q).drop ((pageOf q - 1) * limitOf q)).take (limitOf q)

/-- NftService.findOne from the nft service source: the first stored
record with the given composite key, and none when there is no such
record. -/
def findOne (db : List StellarNft) (contractId tokenId : String) : Option StellarNft :=
  db.find? (fun n => n.contractId == contractId && n.tokenId == tokenId)

/-- Error message carried by a failed RPC call. -/
abbrev RpcError := String

/-- SorobanService.getContractData from soroban.service.ts: the underlying
RPC outcome is passed in explicitly; a throw is caught, logged, and
converted to null. -/
def getContractData {α : Type} (rpcResult : Except RpcError α) : Option α :=
  match rpcResult with
  | Except.ok d => some d
  | Except.error _ => none

/-- SorobanService.getEvents from soroban.service.ts: a throw is caught,
logged, and converted to the empty event list. -/
def getEvents {α : Type} (rpcResult : Except RpcError (List α)) : List α :=
  match rpcResult with
  | Except.ok evs => evs
  | Except.error _ => []

/-- SorobanService.getLatestLedger from soroban.service.ts: a throw is
caught, logged, and converted to sequence 0. -/
def getLatestLedger (rpcResult : Except RpcError Nat) : Nat :=
  match rpcResult with
  | Except.ok r => r
  | Except.error _ => 0

/-- NftService.handleCron from the nft service source, as a transition on
the lastSyncedLedger cursor.  The two awaited fetches are passed in as
explicit outcomes; the surrounding try-catch leaves the cursor unchanged
on any throw, and the early return leaves it unchanged when the latest
ledger has not advanced past the cursor. -/
def handleCron {α : Type} (lastSyncedLedger : Nat)
    (latestResult : Except RpcError Nat)
    (eventsResult : Except RpcError (List α)) : Nat :=
  match latestResult with
  | Except.error _ => lastSyncedLedger
  | Except.ok latest =>
    if latest ≤ lastSyncedLedger then lastSyncedLedger
    else
      match eventsResult with
      | Except.error _ => lastSyncedLedger
      | Except.ok _ => latest

/-- C7: a lookup with a key under which nothing is stored returns none
rather than failing, both for the repository-backed findOne and for
getContractData when the ledger-entry fetch throws for a missing entry. -/
theorem get_unknown_returns_none (db : List StellarNft) (cid tid : String)
    (e : RpcError) (h : ∀ n ∈ db, ¬ (n.contractId = cid ∧ n.tokenId = tid)) :
    findOne db cid tid = none ∧
    (getContractData (Except.error e) : Option String) = none := by
  refine ⟨?_, rfl⟩
  unfold findOne
  rw [List.find?_eq_none]
  intro n hn
  have hnot := h n hn
  simp only [Bool.and_eq_true, beq_iff_eq]
  exact fun hc => hnot ⟨hc.1, hc.2⟩

/-- Witness for C7: on an empty store every key is unknown and the lookup
returns none. -/
theorem get_unknown_returns_none_witness :
    findOne [] "CCONTRACT" "7" = none ∧
    (getContractData (Except.error "entry not found") : Option String) = none :=
  get_unknown_returns_none [] "CCONTRACT" "7" "entry not found"
    (fun n hn => absurd hn (List.not_mem_nil n))

/-- C10: every public SorobanService method is total over RPC failures:
a throw makes getContractData return null, getEvents return the empty
list, and getLatestLedger return 0. -/
theorem soroban_rpc_failure_defaults (e1 e2 e3 : RpcError) :
    (getContractData (Except.error e1) : Option String) = none ∧
    (getEvents (Except.error e2) : List String) = [] ∧
    getLatestLedger (Except.error e3) = 0 :=
  ⟨rfl, rfl, rfl⟩

/-- Witness for C10: a concrete RPC failure yields the three fallback
values. -/
theorem soroban_rpc_failure_defaults_witness :
    (getContractData (Except.error "connection refused") : Option String) = none ∧
    (getEvents (Except.error "connection refused") : List String) = [] ∧
    getLatestLedger (Except.error "connection refused") = 0 :=
  soroban_rpc_failure_defaults "connection refused" "connection refused" "connection refused"

/-- C9: across one handleCron run the cursor never decreases; it moves to
the latest ledger exactly when that fetch succeeds with a strictly larger
value and the event fetch also succeeds, and it is left unchanged when the
latest ledger is not ahead of the cursor or when either fetch throws. -/
theorem handleCron_cursor_monotone (last : Nat) (lr : Except RpcError Nat)
    (er : Except RpcError (List String)) :
    last ≤ handleCron last lr er ∧
    (∀ latest, lr = Except.ok latest → latest ≤ last →
      handleCron last lr er = last) ∧
    (∀ latest evs, lr = Except.ok latest → last < latest →
      er = Except.ok evs → handleCron last lr er = latest) ∧
    (∀ e, lr = Except.error e → handleCron last lr er = last) ∧
    (∀ e, er = Except.error e → handleCron last lr er = last) ∧
    (handleCron last lr er ≠ last →
      ∃ latest evs, lr = Except.ok latest ∧ last < latest ∧
        er = Except.ok evs ∧ handleCron last lr er = latest) := by
  cases lr with
  | error e0 =>
    have hrun : handleCron last (Except.error e0) er = last := rfl
    refine ⟨le_of_eq hrun.symm, ?_, ?_, ?_, ?_, ?_⟩
    · intro latest hl hlat
      exact absurd hl (by simp)
    · intro latest evs hl hlat hev
      exact absurd hl (by simp)
    · intro e1 hl
      exact hrun
    · intro e1 hev
      exact hrun
    · intro hne
      exact absurd hrun hne
  | ok latest0 =>
    by_cases hle : latest0 ≤ last
    · have hrun : handleCron last (Except.ok latest0) er = last := by
        simp [handleCron, hle]
      refine ⟨le_of_eq hrun.symm, ?_, ?_, ?_, ?_, ?_⟩
      · intro latest hl hlat
        exact hrun
      · intro latest evs hl hlat hev
        have heq : latest0 = latest := Except.ok.inj hl
        exfalso
        omega
      · intro e1 hl
        exact absurd hl (by simp)
      · intro e1 hev
        exact hrun
      · intro hne
        exact absurd hrun hne
    · cases er with
      | error e0 =>
        have hrun : handleCron last (Except.ok latest0)
            (Except.error e0 : Except RpcError (List String)) = last := by
          simp [handleCron, hle]
        refine ⟨le_of_eq hrun.symm, ?_, ?_, ?_, ?_, ?_⟩
        · intro latest hl hlat
          exact hrun
        · intro latest evs hl hlat hev
          exact absurd hev (by simp)
        · intro e1 hl
          exact absurd hl (by simp)
        · intro e1 hev
          exact hrun
        · intro hne
          exact absurd hrun hne
      | ok evs0 =>
        have hrun : handleCron last (Except.ok latest0) (Except.ok evs0) = latest0 := by
          simp [handleCron, hle]
        refine ⟨?_, ?_, ?_, ?_, ?_, ?_⟩
        · rw [hrun]
          omega
        · intro latest hl hlat
          have heq : latest0 = latest := Except.ok.inj hl
          exfalso
          omega
        · intro latest evs hl hlat hev
          rw [hrun]
          exact Except.ok.inj hl
        · intro e1 hl
          exact absurd hl (by simp)
        · intro e1 hev
          exact absurd hev (by simp)
        · intro hne
          exact ⟨latest0, evs0, rfl, by omega, rfl, hrun⟩

/-- Witness for C9: from cursor 5, a successful fetch of ledger 10 with a
successful (empty) event fetch advances the cursor to 10. -/
theorem handleCron_cursor_monotone_witness :
    handleCron 5 (Except.ok 10) (Except.ok ([] : List String)) = 10 :=
  (handleCron_cursor_monotone 5 (Except.ok 10) (Except.ok [])).2.2.1 10 []
    rfl (by decide) rfl

theorem jsOr_pos (v : Option Nat) (d : Nat) (hd : 1 ≤ d) : 1 ≤ jsOr v d := by
  cases v with
  | none => exact hd
  | some n =>
    simp only [jsOr]
    split <;> omega

theorem pageBlocks_disjoint (L p1 p2 i j : Nat) (hL : 1 ≤ L) (hp1 : 1 ≤ p1)
    (hp2 : 1 ≤ p2) (hne : p1 ≠ p2) (hi : i < L) (hj : j < L) :
    (p1 - 1) * L + i ≠ (p2 - 1) * L + j := by
  have key : ∀ a b x : Nat, 1 ≤ a → a < b → x < L →
      (a - 1) * L + x < (b - 1) * L := by
    intro a b x ha hab hx
    have h1 : (a - 1 + 1) * L ≤ (b - 1) * L := Nat.mul_le_mul (by omega) le_rfl
    rw [Nat.succ_mul] at h1
    omega
  rcases Nat.lt_or_ge p1 p2 with h | h
  · have := key p1 p2 i hp1 h hi
    omega
  · have hlt : p2 < p1 := by omega
    have := key p2 p1 j hp2 hlt hj
    omega

/-- C8: findAll returns at most limit records, limit defaulting to 10 and
page to 1 when absent; position i of the returned page is position
(page - 1) * limit + i of the filtered and ordered result; two queries
agreeing on filter and sort fields share that ordered result, and two
distinct page numbers address disjoint index ranges of it. -/
theorem findAll_pagination (db : List StellarNft) (q : NftFilterDto) :
    (findAll db q).length ≤ limitOf q ∧
    (q.limit = none → limitOf q = 10) ∧
    (q.page = none → pageOf q = 1) ∧
    (∀ i, i < limitOf q →
      (findAll db q)[i]? =
        (sortedResult db q)[(pageOf q - 1) * limitOf q + i]?) ∧
    (∀ q2, q2.contractId = q.contractId → q2.owner = q.owner →
      q2.sortBy = q.sortBy → q2.sortOrder = q.sortOrder →
      sortedResult db q2 = sortedResult db q) ∧
    (∀ p1 p2 i j, 1 ≤ p1 → 1 ≤ p2 → p1 ≠ p2 →
      i < limitOf q → j < limitOf q →
      (p1 - 1) * limitOf q + i ≠ (p2 - 1) * limitOf q + j) := by
  have hL : 1 ≤ limitOf q := jsOr_pos q.limit 10 (by omega)
  refine ⟨?_, ?_, ?_, ?_, ?_, ?_⟩
  · have hlen : (findAll db q).length =
        min (limitOf q) ((sortedResult db q).drop ((pageOf q - 1) * limitOf q)).length := by
      simp [findAll]
    omega
  · intro h
    simp [limitOf, jsOr, h]
  · intro h
    simp [pageOf, jsOr, h]
  · intro i hi
    unfold findAll
    rw [List.getElem?_take_of_lt hi, List.getElem?_drop]
  · intro q2 h1 h2 h3 h4
    have hf : matchesFilter q2 = matchesFilter q := by
      funext n
      simp [matchesFilter, h1, h2]
    have hs : nftLe q2 = nftLe q := by
      funext a b
      simp [nftLe, sortVal, h3, h4]
    unfold sortedResult
    rw [hf, hs]
  · intro p1 p2 i j hp1 hp2 hne hi hj
    exact pageBlocks_disjoint (limitOf q) p1 p2 i j hL hp1 hp2 hne hi hj

/-- Witness for C8: the empty store with the all-default query returns at
most the default limit of 10 records. -/
theorem findAll_pagination_witness :
    (findAll [] ⟨none, none, none, none, none, none⟩).length ≤
      limitOf ⟨none, none, none, none, none, none⟩ :=
  (findAll_pagination [] ⟨none, none, none, none, none, none⟩).1

/-- State of a marketplace transaction. -/
inductive TxState where
  | created
  | executed
  | cancelled
  | expired
deriving DecidableEq, Repr

/-- A fixed-price sale transaction: seller, escrowed NFT, payment amount,
creation and expiry times, and lifecycle state. -/
structure SaleTx where
  seller : Nat
  nft : Nat
  priceAmount : Nat
  createdAt : Nat
  expiresAt : Nat
  state : TxState
deriving DecidableEq, Repr

/-- Association-list lookup keyed by a numeric id. -/
def alGet {α : Type} (m : List (Nat × α)) (k : Nat) : Option α :=
  (m.find? (fun e => e.1 == k)).map Prod.snd

/-- Association-list overwrite keyed by a numeric id. -/
def alPut {α : Type} (m : List (Nat × α)) (k : Nat) (v : α) : List (Nat × α) :=
  (k, v) :: m.filter (fun e => e.1 != k)

/-- Modelled from the spec: atomic_swap.rs and the storage layer are
absent from the source tree.  Persistent state of the settlement engine:
the transaction store, the per-id reentrancy lock flags, payment-asset
balances, NFT ownership, the escrow holdings, the accumulated platform
fee balance, and the id counter. -/
structure EngineState where
  txs : List (Nat × SaleTx)
  locks : List Nat
  balances : List (Nat × Nat)
  nftOwner : List (Nat × Nat)
  escrow : List Nat
  platformFees : Nat
  nextId : Nat
deriving DecidableEq, Repr

/-- Payment-asset balance of an address, zero when absent. -/
def balOf (st : EngineState) (a : Nat) : Nat := (alGet st.balances a).getD 0

/-- Current owner of an NFT. -/
def ownerOf (st : EngineState) (n : Nat) : Option Nat := alGet st.nftOwner n

/-- Settlement context: the creator address of the collection, the royalty
policy, and the platform fee in basis points. -/
structure Ctx where
  creator : Nat
  royalty : RoyaltyDistribution
  feeBps : Nat
deriving DecidableEq, Repr

/-- Modelled from the spec: atomic_swap.rs is absent from the source
tree.  Section 4.4 create_sale: rejects a zero price, requires the seller
to own the NFT, then persists a Created transaction and an escrow holding
and returns the fresh transaction id. -/
def create_sale (st : EngineState) (now seller nft price duration : Nat) :
    Except SettleError (Nat × EngineState) :=
  if price = 0 then Except.error SettleError.paymentErr
  else
    match ownerOf st nft with
    | none => Except.error SettleError.notFound
    | some o =>
      if o = seller then
        let id := st.nextId
        let tx : SaleTx := ⟨seller, nft, price, now, now + duration, TxState.created⟩
        Except.ok (id, { st with
          txs := alPut st.txs id tx,
          escrow := id :: st.escrow,
          nextId := id + 1 })
      else Except.error SettleError.authErr

/-- Modelled from the spec: atomic_swap.rs is absent from the source
tree.  Section 4.4 execute_sale with the section 4.2 reentrancy guard:
fails on a set lock flag, a missing transaction, a non-Created state, an
expired deadline, a payment different from the stored amount, a buyer who
is the seller, or insufficient buyer funds; otherwise debits the buyer,
credits the distribute outputs to creator, seller and the platform fee
balance, releases the escrowed NFT to the buyer and marks the transaction
Executed, all in one returned state.  An error returns no state at all,
mirroring the host rolling back the whole invocation. -/
def execute_sale (ctx : Ctx) (st : EngineState) (now id buyer payment : Nat) :
    Except SettleError EngineState :=
  if st.locks.contains id then
    Except.error (SettleError.security SecurityError.reentrant)
  else
    match alGet st.txs id with
    | none => Except.error SettleError.notFound
    | some tx =>
      if tx.state ≠ TxState.created then Except.error SettleError.stateErr
      else if tx.expiresAt < now then Except.error SettleError.stateErr
      else if payment ≠ tx.priceAmount then Except.error SettleError.paymentErr
      else if buyer = tx.seller then Except.error SettleError.authErr
      else if balOf st buyer < payment then Except.error SettleError.paymentErr
      else
        match distribute payment ctx.royalty ctx.feeBps with
        | Except.error _ => Except.error (SettleError.math MathError.overflow)
        | Except.ok sh =>
          let st1 := { st with
            balances := alPut st.balances buyer (balOf st buyer - payment) }
          let st2 := { st1 with
            balances := alPut st1.balances ctx.creator
              (balOf st1 ctx.creator + sh.creatorAmount) }
          let st3 := { st2 with
            balances := alPut st2.balances tx.seller
              (balOf st2 tx.seller + sh.sellerAmount) }
          Except.ok { st3 with
            platformFees := st3.platformFees + sh.platformAmount,
            nftOwner := alPut st3.nftOwner tx.nft buyer,
            escrow := st3.escrow.filter (fun e => e != id),
            txs := alPut st3.txs id { tx with state := TxState.executed } }

/-- Modelled from the spec: atomic_swap.rs is absent from the source
tree.  Section 4.4 cancel_transaction with the section 4.2 reentrancy
guard: permitted only by the seller, or by anyone after expiry, while the
transaction is Created; releases the escrow and marks it Cancelled. -/
def cancel_transaction (st : EngineState) (now id caller : Nat) :
    Except SettleError EngineState :=
  if st.locks.contains id then
    Except.error (SettleError.security SecurityError.reentrant)
  else
    match alGet st.txs id with
    | none => Except.error SettleError.notFound
    | some tx =>
      if tx.state ≠ TxState.created then Except.error SettleError.stateErr
      else if caller = tx.seller ∨ tx.expiresAt < now then
        Except.ok { st with
          escrow := st.escrow.filter (fun e => e != id),
          txs := alPut st.txs id { tx with state := TxState.cancelled } }
      else Except.error SettleError.authErr

/-- A settlement-mutating operation on an existing transaction id. -/
inductive SettleOp where
  | exec (now id buyer payment : Nat)
  | cancel (now id caller : Nat)
deriving DecidableEq, Repr

/-- The transaction id an operation targets. -/
def opTxId : SettleOp → Nat
  | SettleOp.exec _ id _ _ => id
  | SettleOp.cancel _ id _ => id

/-- Dispatch of a settlement-mutating operation. -/
def applyOp (ctx : Ctx) (st : EngineState) : SettleOp → Except SettleError EngineState
  | SettleOp.exec now id buyer payment => execute_sale ctx st now id buyer payment
  | SettleOp.cancel now id caller => cancel_transaction st now id caller

/-- The persisted state after an operation: the new state on success, the
old state untouched on failure (the host rolls a failed invocation back). -/
def runOp (ctx : Ctx) (st : EngineState) (op : SettleOp) : EngineState :=
  match applyOp ctx st op with
  | Except.ok st2 => st2
  | Except.error _ => st

/-- C5: with the reentrancy lock flag set for an id, every
settlement-mutating operation on that id fails with the reentrancy
security error and the persisted state is unchanged. -/
theorem reentrancy_guard_blocks (ctx : Ctx) (st : EngineState) (op : SettleOp)
    (h : st.locks.contains (opTxId op) = true) :
    applyOp ctx st op = Except.error (SettleError.security SecurityError.reentrant) ∧
    runOp ctx st op = st := by
  have happ : applyOp ctx st op =
      Except.error (SettleError.security SecurityError.reentrant) := by
    cases op with
    | exec now id buyer payment =>
      simp only [opTxId] at h
      show execute_sale ctx st now id buyer payment = _
      unfold execute_sale
      rw [if_pos h]
    | cancel now id caller =>
      simp only [opTxId] at h
      show cancel_transaction st now id caller = _
      unfold cancel_transaction
      rw [if_pos h]
  refine ⟨happ, ?_⟩
  unfold runOp
  rw [happ]

/-- Witness for C5: a state with the lock flag set for id 7 rejects an
execute attempt on id 7 without touching the state. -/
theorem reentrancy_guard_blocks_witness :
    applyOp ⟨3, ⟨500, 9000, 500⟩, 500⟩ ⟨[], [7], [], [], [], 0, 0⟩
      (SettleOp.exec 0 7 2 1000) =
      Except.error (SettleError.security SecurityError.reentrant) ∧
    runOp ⟨3, ⟨500, 9000, 500⟩, 500⟩ ⟨[], [7], [], [], [], 0, 0⟩
      (SettleOp.exec 0 7 2 1000) = ⟨[], [7], [], [], [], 0, 0⟩ :=
  reentrancy_guard_blocks ⟨3, ⟨500, 9000, 500⟩, 500⟩ ⟨[], [7], [], [], [], 0, 0⟩
    (SettleOp.exec 0 7 2 1000) (by decide)

/-- C4: a successful execute_sale implies the transaction exists, was in
the Created state, was not expired, the payment equals the stored amount
exactly, and the buyer is not the seller. -/
theorem execute_sale_requires (ctx : Ctx) (st : EngineState)
    (now id buyer payment : Nat) (st2 : EngineState)
    (h : execute_sale ctx st now id buyer payment = Except.ok st2) :
    ∃ tx, alGet st.txs id = some tx ∧ tx.state = TxState.created ∧
      ¬ tx.expiresAt < now ∧ payment = tx.priceAmount ∧ buyer ≠ tx.seller := by
  unfold execute_sale at h
  by_cases hlock : st.locks.contains id
  · rw [if_pos hlock] at h
    exact absurd h (by simp)
  · rw [if_neg hlock] at h
    revert h
    cases htx : alGet st.txs id with
    | none =>
      intro h
      exact absurd h (by simp)
    | some tx =>
      intro h
      simp only [] at h
      refine ⟨tx, rfl, ?_⟩
      by_cases h1 : tx.state ≠ TxState.created
      · rw [if_pos h1] at h
        exact absurd h (by simp)
      · rw [if_neg h1] at h
        by_cases h2 : tx.expiresAt < now
        · rw [if_pos h2] at h
          exact absurd h (by simp)
        · rw [if_neg h2] at h
          by_cases h3 : payment ≠ tx.priceAmount
          · rw [if_pos h3] at h
            exact absurd h (by simp)
          · rw [if_neg h3] at h
            by_cases h4 : buyer = tx.seller
            · rw [if_pos h4] at h
              exact absurd h (by simp)
            · rw [if_neg h4] at h
              exact ⟨not_not.mp h1, h2, not_not.mp h3, h4⟩

/-- Royalty and fee context of the section 8 scenario: creator address 3,
shares 500, 9000 and 500 bps, platform fee 500 bps. -/
def scenarioCtx : Ctx := ⟨3, ⟨500, 9000, 500⟩, 500⟩

/-- Initial state of the section 8 scenario: seller 1 owns NFT 1, buyer 2
holds 1000 of the payment asset, creator is address 3. -/
def scenarioInit : EngineState := ⟨[], [], [(2, 1000)], [(1, 1)], [], 0, 0⟩

/-- The section 8 scenario run: create_sale by seller 1 of NFT 1 at price
1000 with duration 3600, then execute_sale by buyer 2 with payment 1000. -/
def scenarioFinal : Except SettleError EngineState :=
  match create_sale scenarioInit 0 1 1 1000 3600 with
  | Except.ok p => execute_sale scenarioCtx p.2 0 p.1 2 1000
  | Except.error e => Except.error e

/-- The state the scenario run ends in. -/
def scenarioSt : EngineState :=
  match scenarioFinal with
  | Except.ok st => st
  | Except.error _ => scenarioInit

/-- C2 counterexample: the scenario sale executes, but the creator
receives 47, not 50: the section 4.3 algorithm takes the creator share of
the 950 remaining after the platform fee, and floor(950 times 500 over
10000) is 47. -/
theorem scenario_sale_creator_not_fifty :
    scenarioFinal = Except.ok scenarioSt ∧ ¬ balOf scenarioSt 3 = 50 := by
  decide

/-- C2 (amended): the scenario sale executes and pays the creator exactly
47, the platform exactly 50 and the seller exactly 903, transfers the
escrowed NFT to the buyer, and sets the transaction state to Executed. -/
theorem scenario_sale_amended :
    scenarioFinal = Except.ok scenarioSt ∧
    balOf scenarioSt 3 = 47 ∧
    scenarioSt.platformFees = 50 ∧
    balOf scenarioSt 1 = 903 ∧
    ownerOf scenarioSt 1 = some 2 ∧
    Option.map SaleTx.state (alGet scenarioSt.txs 0) = some TxState.executed := by
  decide

/-- A state holding one Created sale of NFT 1 at price 1000 by seller 1,
with buyer 2 funded. -/
def saleReadySt : EngineState :=
  ⟨[(0, ⟨1, 1, 1000, 0, 3600, TxState.created⟩)], [], [(2, 1000)], [(1, 1)], [0], 0, 1⟩

/-- The state after buyer 2 executes the prepared sale. -/
def saleExecSt : EngineState :=
  match execute_sale scenarioCtx saleReadySt 0 0 2 1000 with
  | Except.ok st => st
  | Except.error _ => saleReadySt

/-- Witness for C4: a concrete successful execute_sale, from which the
five validated conditions follow. -/
theorem execute_sale_requires_witness :
    ∃ tx, alGet saleReadySt.txs 0 = some tx ∧ tx.state = TxState.created ∧
      ¬ tx.expiresAt < 0 ∧ 1000 = tx.priceAmount ∧ 2 ≠ tx.seller :=
  execute_sale_requires scenarioCtx saleReadySt 0 0 2 1000 saleExecSt (by decide)

end NFTopia
